import Mathlib

/-!
Verification of the biopipeline analytical core: a shallow embedding of
src/biopipeline/genome/stats.py (class GenomeStats) and
src/biopipeline/scoring/candidate_scorer.py (class CandidateScorer).

Modelling conventions:
* Python strings are embedded as List Char; str.upper and str.lower are
  Char.toUpper / Char.toLower mapped over the list (ASCII case mapping,
  which agrees with Python on the residue and keyword alphabets used here).
* Python numbers are embedded exactly: int as Nat or Int, float arithmetic
  as Rat.  The float expressions appearing in the source (total_length / 2,
  total_length * 0.9, gc ratios compared against the integer thresholds
  30, 35, 40, 60, 65, 70, unique_aa / 20 compared against 0.7 and 0.5,
  and the final *100 scaling) either are exact in double precision or
  round back to the exact rational value at every comparison boundary, so
  the Rat embedding is extensionally faithful for the properties claimed.
* Code that can raise is embedded with Except PyError.
-/

/-- Errors raised by the embedded code paths: ValueError in
GenomeStats.__init__ on an empty record collection, and ZeroDivisionError
in gc_content_per_sequence on a zero-length sequence. -/
inductive PyError where
  | valueError : PyError
  | zeroDivisionError : PyError
deriving DecidableEq, Repr

/-- One FASTA record as produced by SeqIO.parse: an identifier and a
residue string (embedded as a list of characters). -/
structure SeqRecord where
  id : List Char
  seq : List Char
deriving DecidableEq, Repr

/-- Embeds GenomeStats.__init__ after SeqIO.parse has produced the record
list: an empty collection raises ValueError, otherwise the record list is
stored.  The file-existence check that precedes parsing is filesystem
plumbing outside the analytical model. -/
def GenomeStats.init (sequences : List SeqRecord) : Except PyError (List SeqRecord) :=
  if sequences.isEmpty then .error .valueError else .ok sequences

/-- Lengths of all records, in input order: the list comprehension
[len(seq) for seq in self.sequences]. -/
def contigLengths (sequences : List SeqRecord) : List Nat :=
  sequences.map (fun s => s.seq.length)

/-- Embeds sorted(lengths, reverse=True).  Python sorted returns the
non-increasing permutation of the multiset; on Nat any two such
permutations are equal as lists, so insertion sort is extensionally
faithful. -/
def sortDescNat (l : List Nat) : List Nat :=
  l.insertionSort (· ≥ ·)

/-- Embeds sorted(lengths) (ascending). -/
def sortAscNat (l : List Nat) : List Nat :=
  l.insertionSort (· ≤ ·)

/-- Embeds the accumulation loop shared by calculate_n50 and
calculate_n90: walk the (descending-sorted) lengths, add each to the
running total, and return the current length as soon as the running total
reaches the threshold; return 0 if the list is exhausted. -/
def nxAccumulate (threshold : Rat) : Nat → List Nat → Nat
  | _, [] => 0
  | cumulative, length :: rest =>
    if threshold ≤ ((cumulative + length : Nat) : Rat) then length
    else nxAccumulate threshold (cumulative + length) rest

/-- Embeds GenomeStats.calculate_n50: descending sort, threshold
total_length / 2 (exact in double precision for any realistic total). -/
def calculate_n50 (sequences : List SeqRecord) : Nat :=
  let lengths := sortDescNat (contigLengths sequences)
  let total_length := lengths.sum
  nxAccumulate ((total_length : Rat) / 2) 0 lengths

/-- Embeds GenomeStats.calculate_n90: descending sort, threshold
total_length * 0.9.  The double rounding of 0.9 perturbs the threshold by
a relative 2 to the power -52, which cannot affect any of the claimed
order/membership invariants, all of which hold for every threshold
between 0 and the total. -/
def calculate_n90 (sequences : List SeqRecord) : Nat :=
  let lengths := sortDescNat (contigLengths sequences)
  let total_length := lengths.sum
  nxAccumulate ((total_length : Rat) * (9 / 10)) 0 lengths

/-- Embeds GenomeStats.gc_content: per record, uppercase the residue
string, count G plus C and the string length; then (total_gc /
total_bases) * 100, with 0.0 returned when total_bases is 0. -/
def gc_content (sequences : List SeqRecord) : Rat :=
  let total_gc : Nat := (sequences.map (fun s =>
    ((s.seq.map Char.toUpper).count 'G') + ((s.seq.map Char.toUpper).count 'C'))).sum
  let total_bases : Nat := (sequences.map (fun s => (s.seq.map Char.toUpper).length)).sum
  if total_bases = 0 then 0 else ((total_gc : Rat) / (total_bases : Rat)) * 100

/-- One output row of gc_content_per_sequence: sequence_id, length,
gc_percent. -/
structure GCRow where
  sequence_id : List Char
  length : Nat
  gc_percent : Rat
deriving DecidableEq, Repr

/-- The row built for one record inside the gc_content_per_sequence loop
(only reached when the sequence length is nonzero). -/
def gcRow (s : SeqRecord) : GCRow :=
  let sequence := s.seq.map Char.toUpper
  { sequence_id := s.id
    length := s.seq.length
    gc_percent := (((sequence.count 'G') + (sequence.count 'C') : Nat) : Rat) / (sequence.length : Rat) * 100 }

/-- Embeds GenomeStats.gc_content_per_sequence: one row per record; the
division gc = (count G + count C) / len(sequence) * 100 raises
ZeroDivisionError at the first record whose sequence length is 0 (the
source has no guard). -/
def gc_content_per_sequence : List SeqRecord → Except PyError (List GCRow)
  | [] => .ok []
  | s :: rest =>
    if (s.seq.map Char.toUpper).length = 0 then .error .zeroDivisionError
    else
      match gc_content_per_sequence rest with
      | .error e => .error e
      | .ok rows => .ok (gcRow s :: rows)

/-- Round-half-to-even on rationals, embedding the Python and numpy
rounding of a float to the nearest integer. -/
def roundHalfEven (q : Rat) : Int :=
  if q - ⌊q⌋ < 1 / 2 then ⌊q⌋
  else if 1 / 2 < q - ⌊q⌋ then ⌊q⌋ + 1
  else if ⌊q⌋ % 2 = 0 then ⌊q⌋ else ⌊q⌋ + 1

/-- Rounding to a fixed number of decimal places, embedding round(x, n)
and the pandas Series round(n). -/
def roundTo (places : Nat) (q : Rat) : Rat :=
  ((roundHalfEven (q * 10 ^ places) : Int) : Rat) / 10 ^ places

/-- Embeds min(lengths) if lengths else 0. -/
def pyMin (l : List Nat) : Nat :=
  match l with
  | [] => 0
  | h :: t => t.foldl Nat.min h

/-- Embeds max(lengths) if lengths else 0. -/
def pyMax (l : List Nat) : Nat :=
  match l with
  | [] => 0
  | h :: t => t.foldl Nat.max h

/-- The summary record returned by GenomeStats.get_basic_stats.  The
genome_file field (a file name copied through) is omitted from the
analytical model. -/
structure BasicStats where
  total_sequences : Nat
  total_length : Nat
  n50 : Nat
  n90 : Nat
  gc_percent : Rat
  longest_contig : Nat
  shortest_contig : Nat
  mean_length : Rat
  median_length : Nat
deriving DecidableEq, Repr

/-- Embeds GenomeStats.get_basic_stats.  The median is
sorted(lengths)[len(lengths) // 2] when lengths is nonempty and 0
otherwise; the index len // 2 is within bounds for any nonempty list, so
getD with default 0 only uses its default in the (guarded) empty case. -/
def get_basic_stats (sequences : List SeqRecord) : BasicStats :=
  let lengths := contigLengths sequences
  { total_sequences := sequences.length
    total_length := lengths.sum
    n50 := calculate_n50 sequences
    n90 := calculate_n90 sequences
    gc_percent := roundTo 2 (gc_content sequences)
    longest_contig := pyMax lengths
    shortest_contig := pyMin lengths
    mean_length := if lengths.length ≠ 0 then roundTo 2 ((lengths.sum : Rat) / (lengths.length : Rat)) else 0
    median_length := if lengths ≠ [] then (sortAscNat lengths).getD (lengths.length / 2) 0 else 0 }

/-- Median convention asserted by the specification for even counts: the
lower-middle element of the ascending order, written from the spec words
(for an even count 2k the lower-middle sits at index k - 1). -/
def medianLowerMiddle (l : List Nat) : Nat :=
  (sortAscNat l).getD (l.length / 2 - 1) 0

/-- Median convention actually used by the source for even counts: the
element at index length / 2 of the ascending order, which for an even
count 2k is the upper-middle element (index k). -/
def medianUpperMiddle (l : List Nat) : Nat :=
  (sortAscNat l).getD (l.length / 2) 0

/-- Specification-side restatement of the global GC formula: count of G
plus count of C across all sequences, counted case-insensitively (a
character counts when its uppercase form is G or C), divided by the total
residue count, times 100, and 0 when the total residue count is 0. -/
def gcContentSpec (sequences : List SeqRecord) : Rat :=
  let ci_gc : Nat := (sequences.map (fun s =>
    s.seq.countP (fun c => c.toUpper == 'G' || c.toUpper == 'C'))).sum
  let total : Nat := (sequences.map (fun s => s.seq.length)).sum
  if total = 0 then 0 else ((ci_gc : Rat) / (total : Rat)) * 100

/-- Embeds CandidateScorer.score_length, the piecewise step function of
the amino-acid length. -/
def score_length (length : Int) : Rat :=
  if 250 ≤ length ∧ length ≤ 600 then 1
  else if (200 ≤ length ∧ length < 250) ∨ (600 < length ∧ length ≤ 700) then 4 / 5
  else if (150 ≤ length ∧ length < 200) ∨ (700 < length ∧ length ≤ 800) then 3 / 5
  else if (100 ≤ length ∧ length < 150) ∨ (800 < length ∧ length ≤ 1000) then 2 / 5
  else 1 / 5

/-- Specification-side restatement of the length score as the disjoint
union of intervals listed in the spec table. -/
def scoreLengthSpec (length : Int) : Rat :=
  if 250 ≤ length ∧ length ≤ 600 then 1
  else if (200 ≤ length ∧ length < 250) ∨ (600 < length ∧ length ≤ 700) then 4 / 5
  else if (150 ≤ length ∧ length < 200) ∨ (700 < length ∧ length ≤ 800) then 3 / 5
  else if (100 ≤ length ∧ length < 150) ∨ (800 < length ∧ length ≤ 1000) then 2 / 5
  else 1 / 5

/-- Character-list version of the startsWith test used below. -/
def isPrefixList : List Char → List Char → Bool
  | [], _ => true
  | _ :: _, [] => false
  | p :: ps, c :: cs => p = c && isPrefixList ps cs

/-- Embeds the Python substring test (kw in s): the pattern occurs as a
contiguous run somewhere in the string. -/
def isSubstring (pattern : List Char) : List Char → Bool
  | [] => pattern.isEmpty
  | c :: rest => isPrefixList pattern (c :: rest) || isSubstring pattern rest

/-- Positive keywords of CandidateScorer.score_signal_peptide. -/
def positive_keywords : List (List Char) :=
  [ "signal".toList, "secreted".toList, "extracellular".toList,
    "exported".toList, "precursor".toList, "preprotein".toList ]

/-- Negative keywords of CandidateScorer.score_signal_peptide. -/
def negative_keywords : List (List Char) :=
  [ "intracellular".toList, "cytoplasmic".toList, "membrane".toList ]

/-- Embeds CandidateScorer.score_signal_peptide: lowercase the product
description, return 1.0 on any positive keyword substring, else 0.0 on
any negative keyword substring, else 0.5. -/
def score_signal_peptide (product : List Char) : Rat :=
  let product_lower := product.map Char.toLower
  if positive_keywords.any (fun kw => isSubstring kw product_lower) then 1
  else if negative_keywords.any (fun kw => isSubstring kw product_lower) then 0
  else 1 / 2

/-- Embeds the Python single-character-separator str.split: splitting the
empty string yields one empty component, every separator occurrence
starts a new component, and characters accumulate onto the current
component. -/
def pySplit (sep : Char) : List Char → List (List Char)
  | [] => [[]]
  | c :: rest =>
    let ps := pySplit sep rest
    if c = sep then [] :: ps
    else
      match ps with
      | [] => [[c]]
      | p :: tail => (c :: p) :: tail

/-- Embeds CandidateScorer.score_ec_number: None (pandas NaN) or the
sentinel N/A scores 0.0; otherwise the string is split on dots and
scored purely by the component count: at least 4 components 1.0, 3
components 0.7, 2 components 0.4, else 0.0.  No numeric validation of the
components is performed anywhere. -/
def score_ec_number (ec_number : Option (List Char)) : Rat :=
  match ec_number with
  | none => 0
  | some s =>
    if s = "N/A".toList then 0
    else
      let ec_parts := pySplit '.' s
      if 4 ≤ ec_parts.length then 1
      else if 3 ≤ ec_parts.length then 7 / 10
      else if 2 ≤ ec_parts.length then 2 / 5
      else 0

/-- Embeds the family_priorities dict of CandidateScorer.__init__, in
insertion order. -/
def family_priorities : List (List Char × Rat) :=
  [ ("Lipases".toList, 1), ("Proteases".toList, 9 / 10),
    ("Cellulases".toList, 4 / 5), ("Laccases".toList, 7 / 10),
    ("Amylases".toList, 3 / 5), ("Peroxydases".toList, 1 / 2),
    ("Xylanases".toList, 2 / 5), ("Chitinases".toList, 3 / 10) ]

/-- Embeds CandidateScorer.score_family_priority: dict get with default
0.5 for an unknown family. -/
def score_family_priority (family : List Char) : Rat :=
  (family_priorities.lookup family).getD (1 / 2)

/-- Embeds CandidateScorer.score_gc_content: sequences shorter than 50
characters (including the empty string, which the source tests first)
score the neutral 0.5; otherwise literal G and C characters are counted
case-sensitively (no upper call here, unlike GenomeStats.gc_content) and
the percentage is banded. -/
def score_gc_content (sequence : List Char) : Rat :=
  if sequence.length < 50 then 1 / 2
  else
    let gc_count : Nat := sequence.count 'G' + sequence.count 'C'
    let gc_percent : Rat := ((gc_count : Rat) / (sequence.length : Rat)) * 100
    if 40 ≤ gc_percent ∧ gc_percent ≤ 60 then 1
    else if (35 ≤ gc_percent ∧ gc_percent < 40) ∨ (60 < gc_percent ∧ gc_percent ≤ 65) then 4 / 5
    else if (30 ≤ gc_percent ∧ gc_percent < 35) ∨ (65 < gc_percent ∧ gc_percent ≤ 70) then 3 / 5
    else 2 / 5

/-- Embeds CandidateScorer.score_complexity: sequences shorter than 50
characters score the neutral 0.5; otherwise diversity is the number of
distinct characters divided by 20, and the repeat test asks whether, for
some distinct character aa of the sequence, the 5-fold repetition of aa
occurs as a substring (Python computes max over the set of the
non-overlapping occurrence counts of aa * 5 and compares it with 0, which
is the same test). -/
def score_complexity (sequence : List Char) : Rat :=
  if sequence.length < 50 then 1 / 2
  else
    let unique_aa : Nat := sequence.dedup.length
    let diversity : Rat := (unique_aa : Rat) / 20
    let has_repeat : Bool := sequence.dedup.any (fun aa => isSubstring (List.replicate 5 aa) sequence)
    if has_repeat then 3 / 10
    else if 7 / 10 < diversity then 1
    else if 1 / 2 < diversity then 7 / 10
    else 1 / 2

/-- The six criterion weights of CandidateScorer. -/
structure CriteriaWeights where
  length : Rat
  signal_peptide : Rat
  ec_number : Rat
  family_priority : Rat
  gc_content : Rat
  complexity : Rat
deriving DecidableEq, Repr

/-- The default criteria_weights dict set in CandidateScorer.__init__. -/
def criteria_weights : CriteriaWeights :=
  { length := 1 / 4
    signal_peptide := 3 / 20
    ec_number := 1 / 5
    family_priority := 1 / 5
    gc_content := 1 / 10
    complexity := 1 / 10 }

/-- One row of the candidate catalog consumed by score_enzymes. -/
structure EnzymeRecord where
  locus_tag : List Char
  product : List Char
  family : List Char
  length : Int
  sequence : List Char
  ec_number : Option (List Char)
deriving DecidableEq, Repr

/-- Embeds the total_score computation of CandidateScorer.score_enzymes
for one record: the weighted sum of the six criterion scores, times 100,
rounded to one decimal place. -/
def total_score (weights : CriteriaWeights) (r : EnzymeRecord) : Rat :=
  roundTo 1 ((score_length r.length * weights.length
    + score_signal_peptide r.product * weights.signal_peptide
    + score_ec_number r.ec_number * weights.ec_number
    + score_family_priority r.family * weights.family_priority
    + score_gc_content r.sequence * weights.gc_content
    + score_complexity r.sequence * weights.complexity) * 100)

/-- Concrete four-record input whose contig lengths are 1, 2, 3, 4. -/
def seqsFour : List SeqRecord :=
  [ ⟨['a'], List.replicate 1 'A'⟩, ⟨['b'], List.replicate 2 'A'⟩,
    ⟨['c'], List.replicate 3 'A'⟩, ⟨['d'], List.replicate 4 'A'⟩ ]

/-- Concrete input from the spec end-to-end scenario: three records of
lengths 1000, 2000, 7000. -/
def seqsScenario : List SeqRecord :=
  [ ⟨['a'], List.replicate 1000 'A'⟩, ⟨['b'], List.replicate 2000 'A'⟩,
    ⟨['c'], List.replicate 7000 'A'⟩ ]

/-- Concrete record collection containing one zero-length sequence. -/
def seqsWithEmpty : List SeqRecord :=
  [ ⟨['a'], ['A', 'C']⟩, ⟨['b'], []⟩ ]

/-- Concrete record collection with every sequence nonempty. -/
def seqsAllNonempty : List SeqRecord :=
  [ ⟨['a'], ['A', 'C']⟩, ⟨['b'], ['G', 'T']⟩ ]

/-- A 50-character residue sequence with 20 distinct characters, 24
literal G/C characters (48 percent), and no 5-fold character run. -/
def seqMaximal : List Char :=
  "GCGCGCGCGCGCGCGCGCGCGCGCADEFHIKLMNPQRSTVWYADEFHIKL".toList

/-- A candidate record that scores 1.0 on all six criteria. -/
def recordMaximal : EnzymeRecord :=
  { locus_tag := []
    product := "extracellular lipase".toList
    family := "Lipases".toList
    length := 400
    sequence := seqMaximal
    ec_number := some "3.1.1.3".toList }

/-- A 50-character all-lowercase residue sequence. -/
def seqLowercase : List Char :=
  List.replicate 25 'g' ++ List.replicate 25 'a'

/-- A syntactically malformed, entirely non-numeric EC string with three
dots. -/
def ecMalformed : List Char :=
  "a.b.c.d".toList

/-- A complete four-component EC number. -/
def ecComplete : List Char :=
  "3.1.1.3".toList

/-- Single-record inputs whose residues are lowercase gcgc and uppercase
GCGC respectively. -/
def seqsLowerGC : List SeqRecord :=
  [ ⟨[], ['g', 'c', 'g', 'c']⟩ ]

/-- Uppercase counterpart of seqsLowerGC. -/
def seqsUpperGC : List SeqRecord :=
  [ ⟨[], ['G', 'C', 'G', 'C']⟩ ]

/-!  Helper lemmas. -/

theorem pySplit_ne_nil (sep : Char) : ∀ l : List Char, pySplit sep l ≠ [] := by
  intro l
  induction l with
  | nil => simp [pySplit]
  | cons c rest ih =>
    unfold pySplit
    by_cases hc : c = sep
    · simp [hc]
    · simp only [if_neg hc]
      cases hps : pySplit sep rest with
      | nil => simp
      | cons p tail => simp

theorem length_pySplit (sep : Char) : ∀ l : List Char,
    (pySplit sep l).length = l.count sep + 1 := by
  intro l
  induction l with
  | nil => simp [pySplit]
  | cons c rest ih =>
    unfold pySplit
    by_cases hc : c = sep
    · subst hc
      simp [List.count_cons, ih]
    · simp only [if_neg hc]
      cases hps : pySplit sep rest with
      | nil => exact absurd hps (pySplit_ne_nil sep rest)
      | cons p tail =>
        have hlen : (p :: tail).length = rest.count sep + 1 := hps ▸ ih
        have hcount : (c :: rest).count sep = rest.count sep := by
          simp [List.count_cons, Ne.symm hc]
        simp only [List.length_cons] at hlen ⊢
        omega

theorem count_map_eq_countP (f : Char → Char) (a : Char) (l : List Char) :
    (l.map f).count a = l.countP (fun c => f c == a) := by
  induction l with
  | nil => rfl
  | cons c rest ih =>
    simp only [List.map_cons, List.count_cons, List.countP_cons, ih]

theorem countP_gc_split (l : List Char) :
    l.countP (fun c => c.toUpper == 'G') + l.countP (fun c => c.toUpper == 'C')
      = l.countP (fun c => c.toUpper == 'G' || c.toUpper == 'C') := by
  induction l with
  | nil => rfl
  | cons c rest ih =>
    simp only [List.countP_cons]
    by_cases h1 : c.toUpper = 'G'
    · simp [h1]
      omega
    · by_cases h2 : c.toUpper = 'C' <;> simp [h1, h2] <;> omega

theorem lookup_mem_values {α β : Type} [BEq α] [LawfulBEq α]
    (l : List (α × β)) (k : α) (v : β) (h : l.lookup k = some v) :
    v ∈ l.map Prod.snd := by
  induction l with
  | nil => simp [List.lookup] at h
  | cons p rest ih =>
    obtain ⟨k', v'⟩ := p
    simp only [List.lookup] at h
    cases hbeq : k == k' with
    | true =>
      rw [hbeq] at h
      simp only [Option.some.injEq] at h
      subst h
      exact List.mem_cons_self _ _
    | false =>
      rw [hbeq] at h
      exact List.mem_cons_of_mem _ (ih h)

theorem foldl_max_le : ∀ (t : List Nat) (a : Nat),
    a ≤ t.foldl Nat.max a ∧ ∀ x ∈ t, x ≤ t.foldl Nat.max a := by
  intro t
  induction t with
  | nil =>
    intro a
    exact ⟨le_refl a, by intro x hx; exact absurd hx (List.not_mem_nil x)⟩
  | cons b t ih =>
    intro a
    constructor
    · exact le_trans (Nat.le_max_left a b) (ih (Nat.max a b)).1
    · intro x hx
      rcases List.mem_cons.mp hx with rfl | hx
      · exact le_trans (Nat.le_max_right a x) (ih (Nat.max a x)).1
      · exact (ih (Nat.max a b)).2 x hx

theorem le_pyMax_of_mem (l : List Nat) : ∀ x ∈ l, x ≤ pyMax l := by
  cases l with
  | nil => intro x hx; exact absurd hx (List.not_mem_nil x)
  | cons h t =>
    intro x hx
    rcases List.mem_cons.mp hx with rfl | hx
    · exact (foldl_max_le t x).1
    · exact (foldl_max_le t h).2 x hx

theorem nxAccumulate_mem (t : Rat) : ∀ (L : List Nat) (c : Nat), L ≠ [] →
    t ≤ ((c + L.sum : Nat) : Rat) → nxAccumulate t c L ∈ L := by
  intro L
  induction L with
  | nil => intro c h; exact absurd rfl h
  | cons a rest ih =>
    intro c _ hsum
    unfold nxAccumulate
    by_cases hc : t ≤ ((c + a : Nat) : Rat)
    · rw [if_pos hc]
      exact List.mem_cons_self a rest
    · rw [if_neg hc]
      cases hrest : rest with
      | nil =>
        exfalso
        apply hc
        have : (a :: rest).sum = a := by rw [hrest]; simp
        rw [this] at hsum
        exact hsum
      | cons b rs =>
        rw [← hrest]
        refine List.mem_cons_of_mem a (ih (c + a) (by rw [hrest]; simp) ?_)
        have harith : (c + a) + rest.sum = c + (a :: rest).sum := by
          simp [List.sum_cons]
          omega
        rw [harith]
        exact hsum

theorem nxAccumulate_mem_or_zero (t : Rat) : ∀ (L : List Nat) (c : Nat),
    nxAccumulate t c L = 0 ∨ nxAccumulate t c L ∈ L := by
  intro L
  induction L with
  | nil => intro c; exact Or.inl rfl
  | cons a rest ih =>
    intro c
    unfold nxAccumulate
    by_cases hc : t ≤ ((c + a : Nat) : Rat)
    · rw [if_pos hc]
      exact Or.inr (List.mem_cons_self a rest)
    · rw [if_neg hc]
      rcases ih (c + a) with h | h
      · exact Or.inl h
      · exact Or.inr (List.mem_cons_of_mem a h)

theorem nxAccumulate_anti (t t' : Rat) (h : t ≤ t') : ∀ (L : List Nat) (c : Nat),
    List.Sorted (· ≥ ·) L → nxAccumulate t' c L ≤ nxAccumulate t c L := by
  intro L
  induction L with
  | nil => intro c _; exact le_refl 0
  | cons a rest ih =>
    intro c hsorted
    unfold nxAccumulate
    by_cases h2 : t' ≤ ((c + a : Nat) : Rat)
    · rw [if_pos h2, if_pos (le_trans h h2)]
    · rw [if_neg h2]
      by_cases h1 : t ≤ ((c + a : Nat) : Rat)
      · rw [if_pos h1]
        rcases nxAccumulate_mem_or_zero t' rest (c + a) with hz | hm
        · rw [hz]; exact Nat.zero_le a
        · exact List.rel_of_sorted_cons hsorted _ hm
      · rw [if_neg h1]
        exact ih (c + a) hsorted.of_cons

/-!  Claim theorems. -/

/-- C6: score_length is exactly the claimed piecewise step function (1.0
on [250,600]; 0.8 on [200,250) and (600,700]; 0.6 on [150,200) and
(700,800]; 0.4 on [100,150) and (800,1000]; 0.2 otherwise), with the
boundary cases 400, 249, 50 and 1500 evaluating as listed. -/
theorem score_length_piecewise :
    (∀ length : Int, score_length length = scoreLengthSpec length) ∧
    score_length 400 = 1 ∧ score_length 249 = 4 / 5 ∧
    score_length 50 = 1 / 5 ∧ score_length 1500 = 1 / 5 := by
  refine ⟨fun l => rfl, ?_, ?_, ?_, ?_⟩ <;> norm_num [score_length]

/-- C2 counterexample: the entirely non-numeric EC string a.b.c.d is not
treated as absent; it splits into four components and scores 1.0, not
0.0. -/
theorem score_ec_number_malformed_cex :
    score_ec_number (some ecMalformed) = 1 ∧
    score_ec_number (some ecMalformed) ≠ 0 := by
  constructor
  · decide
  · decide

/-- C2 amended: the absent sentinel (None or N/A) scores 0.0, and every
other string, numeric or not, is scored solely by its count of
dot-separated components (equivalently dots plus one): at least 4
components 1.0, exactly 3 gives 0.7, exactly 2 gives 0.4, a dotless
string 0.0.  Malformed strings are therefore not uniformly treated as
absent, though none raises an error (the function is total). -/
theorem score_ec_number_by_components (s : List Char) (hs : s ≠ "N/A".toList) :
    score_ec_number (some s) =
      (if 3 ≤ s.count '.' then (1 : Rat)
       else if 2 ≤ s.count '.' then 7 / 10
       else if 1 ≤ s.count '.' then 2 / 5
       else 0) ∧
    score_ec_number none = 0 ∧
    score_ec_number (some ("N/A".toList)) = 0 := by
  refine ⟨?_, rfl, by decide⟩
  change (if s = "N/A".toList then (0 : Rat)
    else
      let ec_parts := pySplit '.' s
      if 4 ≤ ec_parts.length then (1 : Rat)
      else if 3 ≤ ec_parts.length then 7 / 10
      else if 2 ≤ ec_parts.length then 2 / 5
      else 0) = _
  rw [if_neg hs]
  simp only [length_pySplit]
  split_ifs <;> first | rfl | omega

/-- C2 witness: the component rule applied to the complete EC number
3.1.1.3. -/
theorem score_ec_number_by_components_witness :
    score_ec_number (some ecComplete) =
      (if 3 ≤ ecComplete.count '.' then (1 : Rat)
       else if 2 ≤ ecComplete.count '.' then 7 / 10
       else if 1 ≤ ecComplete.count '.' then 2 / 5
       else 0) ∧
    score_ec_number none = 0 ∧
    score_ec_number (some ("N/A".toList)) = 0 :=
  score_ec_number_by_components ecComplete (by decide)

/-- C8: constructing GenomeStats on an empty record collection fails with
the ValueError that the specification names EmptyInputError, and on any
nonempty collection no error is raised. -/
theorem genomeStats_init_empty_check :
    GenomeStats.init [] = .error .valueError ∧
    ∀ sequences : List SeqRecord, sequences ≠ [] →
      GenomeStats.init sequences = .ok sequences := by
  constructor
  · rfl
  · intro seqs h
    unfold GenomeStats.init
    rw [if_neg]
    simpa [List.isEmpty_iff] using h

/-- C8 witness: the empty collection fails and a concrete nonempty
collection succeeds. -/
theorem genomeStats_init_empty_check_witness :
    GenomeStats.init [] = .error .valueError ∧
    GenomeStats.init seqsAllNonempty = .ok seqsAllNonempty :=
  ⟨genomeStats_init_empty_check.1,
   genomeStats_init_empty_check.2 seqsAllNonempty (by decide)⟩

/-- C9: gc_content_per_sequence fails with ZeroDivisionError whenever
some record has a zero-length sequence, and succeeds with exactly one row
per record (identifier, length, gc percentage) whenever every sequence is
nonempty. -/
theorem gc_per_sequence_zero_division (sequences : List SeqRecord) :
    ((∃ s ∈ sequences, s.seq.length = 0) →
      gc_content_per_sequence sequences = .error .zeroDivisionError) ∧
    ((∀ s ∈ sequences, s.seq.length ≠ 0) →
      gc_content_per_sequence sequences = .ok (sequences.map gcRow)) := by
  induction sequences with
  | nil =>
    constructor
    · rintro ⟨s, hs, _⟩
      exact absurd hs (List.not_mem_nil s)
    · intro _
      rfl
  | cons a rest ih =>
    constructor
    · rintro ⟨s, hs, hlen⟩
      rcases List.mem_cons.mp hs with rfl | hmem
      · unfold gc_content_per_sequence
        rw [if_pos (by simpa using hlen)]
      · unfold gc_content_per_sequence
        by_cases ha : (a.seq.map Char.toUpper).length = 0
        · rw [if_pos ha]
        · rw [if_neg ha, ih.1 ⟨s, hmem, hlen⟩]
    · intro hall
      unfold gc_content_per_sequence
      rw [if_neg (by simpa using hall a (List.mem_cons_self a rest)),
        ih.2 (fun s hs => hall s (List.mem_cons_of_mem a hs))]
      rfl

/-- C9 witness: a collection containing a zero-length sequence fails, a
collection of nonempty sequences yields one row per record. -/
theorem gc_per_sequence_zero_division_witness :
    gc_content_per_sequence seqsWithEmpty = .error .zeroDivisionError ∧
    gc_content_per_sequence seqsAllNonempty = .ok (seqsAllNonempty.map gcRow) :=
  ⟨(gc_per_sequence_zero_division seqsWithEmpty).1 (by decide),
   (gc_per_sequence_zero_division seqsAllNonempty).2 (by decide)⟩

/-- C10: score_gc_content counts only uppercase G and C: every sequence
of length at least 50 consisting solely of lowercase characters has GC
percentage 0 and scores 0.4, while the uppercased version of a concrete
such sequence (25 g, 25 a) scores 1.0. -/
theorem score_gc_content_case_sensitive :
    (∀ sequence : List Char, 50 ≤ sequence.length →
      (∀ c ∈ sequence, c.isLower = true) → score_gc_content sequence = 2 / 5) ∧
    score_gc_content seqLowercase = 2 / 5 ∧
    score_gc_content (seqLowercase.map Char.toUpper) = 1 := by
  refine ⟨?_, ?_, ?_⟩
  case refine_2 =>
    have hlen : seqLowercase.length = 50 := by decide
    have hG : seqLowercase.count 'G' = 0 := by decide
    have hC : seqLowercase.count 'C' = 0 := by decide
    simp only [score_gc_content, hlen, hG, hC]
    norm_num
  case refine_3 =>
    have hlen : (seqLowercase.map Char.toUpper).length = 50 := by decide
    have hG : (seqLowercase.map Char.toUpper).count 'G' = 25 := by decide
    have hC : (seqLowercase.map Char.toUpper).count 'C' = 0 := by decide
    simp only [score_gc_content, hlen, hG, hC]
    norm_num
  case refine_1 =>
    intro seq hlen hlower
    have hG : seq.count 'G' = 0 := by
      rw [List.count_eq_zero]
      intro hmem
      exact absurd (hlower 'G' hmem) (by decide)
    have hC : seq.count 'C' = 0 := by
      rw [List.count_eq_zero]
      intro hmem
      exact absurd (hlower 'C' hmem) (by decide)
    unfold score_gc_content
    rw [if_neg (by omega)]
    simp only [hG, hC]
    norm_num

/-- C10 witness: the lowercase-only rule applied to the concrete 50
character sequence. -/
theorem score_gc_content_case_sensitive_witness :
    score_gc_content seqLowercase = 2 / 5 :=
  score_gc_content_case_sensitive.1 seqLowercase (by decide) (by decide)

/-- C3 counterexample: for the four contig lengths 1, 2, 3, 4, the median
reported by get_basic_stats is 3 (the upper-middle of the ascending
order), while the lower-middle element the claim describes is 2. -/
theorem median_lower_middle_cex :
    (get_basic_stats seqsFour).median_length = 3 ∧
    medianLowerMiddle (contigLengths seqsFour) = 2 ∧
    (get_basic_stats seqsFour).median_length ≠ medianLowerMiddle (contigLengths seqsFour) := by
  refine ⟨by decide, by decide, by decide⟩

/-- C3 amended: for every nonempty input, the median reported by
get_basic_stats is the element at index count / 2 of the ascending-sorted
lengths, which for an even count is the upper-middle element (no
averaging), and it always belongs to the actual length multiset. -/
theorem median_upper_middle (sequences : List SeqRecord) (h : sequences ≠ []) :
    (get_basic_stats sequences).median_length = medianUpperMiddle (contigLengths sequences) ∧
    (get_basic_stats sequences).median_length ∈ contigLengths sequences := by
  have hlne : contigLengths sequences ≠ [] := by
    intro hnil
    simp only [contigLengths] at hnil
    exact h (List.map_eq_nil_iff.mp hnil)
  have hmed : (get_basic_stats sequences).median_length =
      (if contigLengths sequences ≠ [] then
        (sortAscNat (contigLengths sequences)).getD ((contigLengths sequences).length / 2) 0
      else 0) := rfl
  have hperm : List.Perm (sortAscNat (contigLengths sequences)) (contigLengths sequences) :=
    List.perm_insertionSort _ _
  have hpos : 0 < (contigLengths sequences).length := List.length_pos.mpr hlne
  have hidx : (contigLengths sequences).length / 2 < (sortAscNat (contigLengths sequences)).length := by
    rw [hperm.length_eq]
    omega
  constructor
  · rw [hmed, if_pos hlne]
    rfl
  · rw [hmed, if_pos hlne, List.getD_eq_getElem _ _ hidx]
    exact hperm.mem_iff.mp (List.getElem_mem _)

/-- C3 witness: the amended median convention at the concrete input with
lengths 1, 2, 3, 4. -/
theorem median_upper_middle_witness :
    (get_basic_stats seqsFour).median_length = medianUpperMiddle (contigLengths seqsFour) ∧
    (get_basic_stats seqsFour).median_length ∈ contigLengths seqsFour :=
  median_upper_middle seqsFour (by decide)

/-- C7: the global gc_content equals the case-insensitive GC count over
all sequences divided by the total residue count times 100 (0 when the
total is 0), and in particular the lowercase input gcgc produces the same
value as GCGC. -/
theorem gc_content_case_insensitive :
    (∀ sequences : List SeqRecord, gc_content sequences = gcContentSpec sequences) ∧
    gc_content seqsLowerGC = gc_content seqsUpperGC := by
  constructor
  · intro seqs
    have key : (fun s : SeqRecord =>
        (s.seq.map Char.toUpper).count 'G' + (s.seq.map Char.toUpper).count 'C')
        = (fun s : SeqRecord =>
          s.seq.countP (fun c => c.toUpper == 'G' || c.toUpper == 'C')) := by
      funext s
      rw [count_map_eq_countP, count_map_eq_countP, countP_gc_split]
    simp only [gc_content, gcContentSpec, List.length_map, key]
  · have hgc : (seqsLowerGC.map (fun s =>
        (s.seq.map Char.toUpper).count 'G' + (s.seq.map Char.toUpper).count 'C')).sum
        = (seqsUpperGC.map (fun s =>
          (s.seq.map Char.toUpper).count 'G' + (s.seq.map Char.toUpper).count 'C')).sum := by
      decide
    have hlen : (seqsLowerGC.map (fun s => (s.seq.map Char.toUpper).length)).sum
        = (seqsUpperGC.map (fun s => (s.seq.map Char.toUpper).length)).sum := by
      decide
    simp only [gc_content]
    rw [hgc, hlen]

/-- C4: for every nonempty input, N90 is at most N50, N50 is at most the
longest contig, both belong to the actual length multiset, and both are 0
when the total length is 0. -/
theorem n50_n90_order_and_membership (sequences : List SeqRecord) (h : sequences ≠ []) :
    calculate_n90 sequences ≤ calculate_n50 sequences ∧
    calculate_n50 sequences ≤ pyMax (contigLengths sequences) ∧
    calculate_n50 sequences ∈ contigLengths sequences ∧
    calculate_n90 sequences ∈ contigLengths sequences ∧
    ((contigLengths sequences).sum = 0 →
      calculate_n50 sequences = 0 ∧ calculate_n90 sequences = 0) := by
  have hlne : contigLengths sequences ≠ [] := by
    intro hnil
    simp only [contigLengths] at hnil
    exact h (List.map_eq_nil_iff.mp hnil)
  have hperm : List.Perm (sortDescNat (contigLengths sequences)) (contigLengths sequences) :=
    List.perm_insertionSort _ _
  have hSne : sortDescNat (contigLengths sequences) ≠ [] := by
    intro hnil
    apply hlne
    have hl := hperm.length_eq
    rw [hnil] at hl
    exact List.length_eq_zero.mp hl.symm
  have hsorted : List.Sorted (· ≥ ·) (sortDescNat (contigLengths sequences)) :=
    List.sorted_insertionSort _ _
  have e50 : calculate_n50 sequences =
      nxAccumulate (((sortDescNat (contigLengths sequences)).sum : Rat) / 2) 0
        (sortDescNat (contigLengths sequences)) := rfl
  have e90 : calculate_n90 sequences =
      nxAccumulate (((sortDescNat (contigLengths sequences)).sum : Rat) * (9 / 10)) 0
        (sortDescNat (contigLengths sequences)) := rfl
  set S := sortDescNat (contigLengths sequences) with hS
  have hcast : (0 : Rat) ≤ (S.sum : Rat) := by positivity
  have h50mem : calculate_n50 sequences ∈ contigLengths sequences := by
    rw [e50]
    refine hperm.mem_iff.mp (nxAccumulate_mem _ S 0 hSne ?_)
    rw [Nat.zero_add]
    linarith
  have h90mem : calculate_n90 sequences ∈ contigLengths sequences := by
    rw [e90]
    refine hperm.mem_iff.mp (nxAccumulate_mem _ S 0 hSne ?_)
    rw [Nat.zero_add]
    linarith
  refine ⟨?_, le_pyMax_of_mem _ _ h50mem, h50mem, h90mem, ?_⟩
  · rw [e50, e90]
    exact nxAccumulate_anti _ _ (by linarith) S 0 hsorted
  · intro htot
    have hall : ∀ x ∈ contigLengths sequences, x = 0 := List.sum_eq_zero_iff.mp htot
    exact ⟨hall _ h50mem, hall _ h90mem⟩

/-- C4 witness: the invariants at the spec scenario with lengths 1000,
2000, 7000. -/
theorem n50_n90_order_and_membership_witness :
    calculate_n90 seqsScenario ≤ calculate_n50 seqsScenario ∧
    calculate_n50 seqsScenario ≤ pyMax (contigLengths seqsScenario) ∧
    calculate_n50 seqsScenario ∈ contigLengths seqsScenario ∧
    calculate_n90 seqsScenario ∈ contigLengths seqsScenario ∧
    ((contigLengths seqsScenario).sum = 0 →
      calculate_n50 seqsScenario = 0 ∧ calculate_n90 seqsScenario = 0) :=
  n50_n90_order_and_membership seqsScenario (by decide)

theorem score_length_range (length : Int) :
    0 ≤ score_length length ∧ score_length length ≤ 1 := by
  simp only [score_length]
  split_ifs <;> norm_num

theorem score_signal_peptide_range (product : List Char) :
    0 ≤ score_signal_peptide product ∧ score_signal_peptide product ≤ 1 := by
  simp only [score_signal_peptide]
  split_ifs <;> norm_num

theorem score_ec_number_range (ec : Option (List Char)) :
    0 ≤ score_ec_number ec ∧ score_ec_number ec ≤ 1 := by
  cases ec with
  | none => exact ⟨le_refl 0, by norm_num [score_ec_number]⟩
  | some s =>
    simp only [score_ec_number]
    split_ifs <;> norm_num

theorem score_family_priority_range (family : List Char) :
    0 ≤ score_family_priority family ∧ score_family_priority family ≤ 1 := by
  unfold score_family_priority
  cases hl : family_priorities.lookup family with
  | none => exact ⟨by norm_num [Option.getD], by norm_num [Option.getD]⟩
  | some v =>
    have hv : v ∈ family_priorities.map Prod.snd := lookup_mem_values _ _ _ hl
    have hvals : ∀ x ∈ family_priorities.map Prod.snd, 0 ≤ x ∧ x ≤ 1 := by
      intro x hx
      simp only [family_priorities, List.map_cons, List.map_nil, List.mem_cons,
        List.not_mem_nil, or_false] at hx
      rcases hx with rfl | rfl | rfl | rfl | rfl | rfl | rfl | rfl <;> norm_num
    simpa [Option.getD] using hvals v hv

theorem score_gc_content_range (sequence : List Char) :
    0 ≤ score_gc_content sequence ∧ score_gc_content sequence ≤ 1 := by
  simp only [score_gc_content]
  split_ifs <;> norm_num

theorem score_complexity_range (sequence : List Char) :
    0 ≤ score_complexity sequence ∧ score_complexity sequence ≤ 1 := by
  simp only [score_complexity]
  split_ifs <;> norm_num

theorem roundHalfEven_bounds (q : Rat) (B : Int) (h0 : 0 ≤ q) (hB : q ≤ (B : Rat)) :
    0 ≤ roundHalfEven q ∧ roundHalfEven q ≤ B := by
  have hf0 : 0 ≤ ⌊q⌋ := Int.floor_nonneg.mpr h0
  have hfB : ⌊q⌋ ≤ B := by
    have h1 := Int.floor_le_floor hB
    rwa [Int.floor_intCast] at h1
  unfold roundHalfEven
  split_ifs with h1 h2 h3
  · exact ⟨hf0, hfB⟩
  · refine ⟨by omega, ?_⟩
    rcases lt_or_eq_of_le hfB with hlt | heq
    · omega
    · exfalso
      have hq : ((⌊q⌋ : Int) : Rat) = (B : Rat) := by rw [heq]
      have hfl : ((⌊q⌋ : Int) : Rat) ≤ q := Int.floor_le q
      linarith
  · exact ⟨hf0, hfB⟩
  · refine ⟨by omega, ?_⟩
    rcases lt_or_eq_of_le hfB with hlt | heq
    · omega
    · exfalso
      have hge : 1 / 2 ≤ q - ⌊q⌋ := le_of_not_lt h1
      have hq : ((⌊q⌋ : Int) : Rat) = (B : Rat) := by rw [heq]
      linarith

theorem roundTo_one_bounds (x : Rat) (h0 : 0 ≤ x) (h1 : x ≤ 100) :
    0 ≤ roundTo 1 x ∧ roundTo 1 x ≤ 100 := by
  have hb := roundHalfEven_bounds (x * 10 ^ 1) 1000 (by positivity)
    (by push_cast; linarith)
  unfold roundTo
  constructor
  · apply div_nonneg
    · exact_mod_cast hb.1
    · positivity
  · rw [div_le_iff₀ (by positivity : (0 : Rat) < 10 ^ 1)]
    calc ((roundHalfEven (x * 10 ^ 1) : Int) : Rat) ≤ ((1000 : Int) : Rat) := by
          exact_mod_cast hb.2
      _ = 100 * 10 ^ 1 := by norm_num

/-- C5: the default weights are exactly the six listed values and sum to
1; under them every possible record scores within [0, 100]; and a record
scoring 1.0 on all six criteria scores exactly 100.0. -/
theorem total_score_bounds_default :
    (criteria_weights.length = 1 / 4 ∧ criteria_weights.signal_peptide = 3 / 20 ∧
     criteria_weights.ec_number = 1 / 5 ∧ criteria_weights.family_priority = 1 / 5 ∧
     criteria_weights.gc_content = 1 / 10 ∧ criteria_weights.complexity = 1 / 10 ∧
     criteria_weights.length + criteria_weights.signal_peptide + criteria_weights.ec_number +
       criteria_weights.family_priority + criteria_weights.gc_content +
       criteria_weights.complexity = 1) ∧
    (∀ r : EnzymeRecord,
      0 ≤ total_score criteria_weights r ∧ total_score criteria_weights r ≤ 100) ∧
    (∀ r : EnzymeRecord,
      score_length r.length = 1 → score_signal_peptide r.product = 1 →
      score_ec_number r.ec_number = 1 → score_family_priority r.family = 1 →
      score_gc_content r.sequence = 1 → score_complexity r.sequence = 1 →
      total_score criteria_weights r = 100) := by
  refine ⟨by norm_num [criteria_weights], ?_, ?_⟩
  · intro r
    obtain ⟨a0, a1⟩ := score_length_range r.length
    obtain ⟨b0, b1⟩ := score_signal_peptide_range r.product
    obtain ⟨c0, c1⟩ := score_ec_number_range r.ec_number
    obtain ⟨d0, d1⟩ := score_family_priority_range r.family
    obtain ⟨e0, e1⟩ := score_gc_content_range r.sequence
    obtain ⟨f0, f1⟩ := score_complexity_range r.sequence
    simp only [total_score, criteria_weights]
    exact roundTo_one_bounds _ (by linarith) (by linarith)
  · intro r h1 h2 h3 h4 h5 h6
    simp only [total_score, criteria_weights, h1, h2, h3, h4, h5, h6]
    norm_num [roundTo, roundHalfEven]

/-- C5 witness: the concrete record recordMaximal scores 1.0 on every
criterion, lies within [0, 100], and totals exactly 100. -/
theorem total_score_bounds_default_witness :
    (0 ≤ total_score criteria_weights recordMaximal ∧
      total_score criteria_weights recordMaximal ≤ 100) ∧
    total_score criteria_weights recordMaximal = 100 := by
  have h1 : score_length recordMaximal.length = 1 := by
    norm_num [recordMaximal, score_length]
  have h2 : score_signal_peptide recordMaximal.product = 1 := by
    have hpos : positive_keywords.any
        (fun kw => isSubstring kw (recordMaximal.product.map Char.toLower)) = true := by
      decide
    simp only [score_signal_peptide, hpos]
    rfl
  have h3 : score_ec_number recordMaximal.ec_number = 1 := by decide
  have h4 : score_family_priority recordMaximal.family = 1 := by decide
  have h5 : score_gc_content recordMaximal.sequence = 1 := by
    have hlen : recordMaximal.sequence.length = 50 := by decide
    have hG : recordMaximal.sequence.count 'G' = 12 := by decide
    have hC : recordMaximal.sequence.count 'C' = 12 := by decide
    simp only [score_gc_content, hlen, hG, hC]
    norm_num
  have h6 : score_complexity recordMaximal.sequence = 1 := by
    have hlen : recordMaximal.sequence.length = 50 := by decide
    have hded : recordMaximal.sequence.dedup.length = 20 := by decide
    have hrep : recordMaximal.sequence.dedup.any
        (fun aa => isSubstring (List.replicate 5 aa) recordMaximal.sequence) = false := by
      decide
    simp only [score_complexity, hlen, hded, hrep]
    norm_num
  exact ⟨total_score_bounds_default.2.1 recordMaximal,
    total_score_bounds_default.2.2 recordMaximal h1 h2 h3 h4 h5 h6⟩
